import Mathlib

/-
Verification development for the Sentinel event-storage and aggregation core.

The TypeScript sources are shallowly embedded:
  - backend/storage/eventBuffer.ts        (in-memory EventBuffer)
  - backend/storage/redisEventBuffer.ts   (RedisEventBuffer on a sorted set)
  - backend/storage/eventBuffer.factory.ts (createEventBuffer storage selector)
  - backend/aggregation/metrics.ts        (aggregateErrorMetrics, aggregateLatencyMetrics)

Modelling conventions:
  - Timestamps: the TS code stores an ISO string and converts it with
    new Date(s).getTime(); events here carry the resulting epoch-millisecond
    integer directly.  The JS falsiness test on the timestamp string
    (empty string) corresponds to the degenerate value 0 here.
  - Clocks: Date.now() is passed explicitly as a parameter named now.
  - JS numbers are modelled as rationals; NaN and non-number runtime values
    of the latency field get their own constructors.
  - Redis: the single sorted set under the key sentinel:events is a list of
    (score, member) pairs kept ordered by score; members are unique, as in a
    Redis sorted set.  A serialized member either round-trips to an event
    (JSON.stringify and JSON.parse are faithful on event objects) or is an
    unparseable blob, modelled by a separate constructor.
  - Storage failures: each RedisEventBuffer operation takes a flag that is
    true when the underlying medium is unreachable (connection loss or
    timeout inside the node-redis call); the try/catch behaviour of the TS
    methods is reproduced on that flag.  The TTL refresh side effect of
    addEvent is not modelled (no claim concerns it).
-/

namespace Sentinel

/-- Runtime value of the latency field of an ingested event: a (finite)
number, NaN, or a non-number value such as undefined. -/
inductive JsVal where
  | num (q : ℚ)
  | nan
  | notNum
deriving DecidableEq

/-- StoredEvent from backend/storage/eventBuffer.ts and redisEventBuffer.ts,
with the timestamp string replaced by its epoch-millisecond value. -/
structure StoredEvent where
  timestamp : Int
  tenant_id : String
  endpoint : String
  method : String
  status_code : Int
  latency_ms : JsVal
  service : String
deriving DecidableEq

/-! In-memory EventBuffer (backend/storage/eventBuffer.ts).  The private
field events is the state, threaded explicitly. -/

/-- State of the in-memory EventBuffer: the events array, in insertion
order. -/
abbrev MemBuffer := List StoredEvent

/-- EventBuffer.addEvent: this.events.push(event). -/
def EventBuffer.addEvent (buf : MemBuffer) (event : StoredEvent) : MemBuffer :=
  buf ++ [event]

/-- EventBuffer.getEventsInWindow: keeps events with
new Date(event.timestamp).getTime() at least Date.now() minus
windowMinutes * 60 * 1000. -/
def EventBuffer.getEventsInWindow (now windowMinutes : Int) (buf : MemBuffer) :
    List StoredEvent :=
  buf.filter (fun event => decide (now - windowMinutes * 60 * 1000 ≤ event.timestamp))

/-- EventBuffer.getAllEvents: returns a copy of this.events. -/
def EventBuffer.getAllEvents (buf : MemBuffer) : List StoredEvent :=
  buf

/-- EventBuffer.getEventCount: this.events.length. -/
def EventBuffer.getEventCount (buf : MemBuffer) : Nat :=
  buf.length

/-- EventBuffer.cleanup: keeps events with timestamp at least
Date.now() minus this.retentionMs and returns (new state, removed count). -/
def EventBuffer.cleanup (now retentionMs : Int) (buf : MemBuffer) :
    MemBuffer × Nat :=
  let kept := buf.filter (fun event => decide (now - retentionMs ≤ event.timestamp))
  (kept, buf.length - kept.length)

/-- EventBuffer.clear: this.events = []. -/
def EventBuffer.clear : MemBuffer :=
  []

/-! RedisEventBuffer (backend/storage/redisEventBuffer.ts). -/

/-- A member string of the sorted set: either the JSON serialization of an
event object, or an unparseable blob (JSON.parse throws); the tag keeps
distinct blobs distinct. -/
inductive Member where
  | ser (e : StoredEvent)
  | corrupt (tag : Nat)
deriving DecidableEq

/-- RedisEventBuffer.deserializeEvent: JSON.parse then reject entries whose
timestamp or tenant_id field is falsy (returns null, i.e. none). -/
def deserializeEvent : Member → Option StoredEvent
  | .ser e => if e.timestamp = 0 ∨ e.tenant_id = "" then none else some e
  | .corrupt _ => none

/-- The Redis sorted set under the key sentinel:events: (score, member)
pairs, ordered by score. -/
abbrev RedisState := List (Int × Member)

/-- Insert a scored member into a score-ordered list, after any entries of
equal score (server-side placement of a ZADD). -/
def zInsert (score : Int) (m : Member) : RedisState → RedisState
  | [] => [(score, m)]
  | (s, v) :: rest =>
    if score < s then (score, m) :: (s, v) :: rest
    else (s, v) :: zInsert score m rest

/-- ZADD: members are unique, so an existing occurrence of the member is
replaced (its score updated); otherwise the member is inserted. -/
def zAdd (score : Int) (m : Member) (st : RedisState) : RedisState :=
  zInsert score m (st.filter (fun p => decide (p.2 ≠ m)))

/-- StorageError: the underlying medium is unreachable or the operation
failed (section 7 of the design). -/
inductive StorageError where
  | unreachable
deriving DecidableEq

/-- RedisEventBuffer.addEvent: zAdd with score = timestamp and member =
JSON.stringify(event); on failure the error is logged and rethrown. -/
def RedisEventBuffer.addEvent (fail : Bool) (event : StoredEvent) (st : RedisState) :
    Except StorageError RedisState :=
  if fail then .error .unreachable
  else .ok (zAdd event.timestamp (.ser event) st)

/-- RedisEventBuffer.getEventsInWindow: zRangeByScore from cutoff to +inf
(inclusive bounds), deserialize each member, drop the failures; on a
storage failure the error is caught and [] is returned. -/
def RedisEventBuffer.getEventsInWindow (fail : Bool) (now windowMinutes : Int)
    (st : RedisState) : List StoredEvent :=
  if fail then []
  else
    ((st.filter (fun p => decide (now - windowMinutes * 60 * 1000 ≤ p.1))).map
      (fun p => p.2)).filterMap deserializeEvent

/-- RedisEventBuffer.getAllEvents: zRange 0 -1, deserialize, drop failures;
[] on storage failure. -/
def RedisEventBuffer.getAllEvents (fail : Bool) (st : RedisState) : List StoredEvent :=
  if fail then []
  else (st.map (fun p => p.2)).filterMap deserializeEvent

/-- RedisEventBuffer.getEventCount: zCard, counting raw members; 0 on
storage failure. -/
def RedisEventBuffer.getEventCount (fail : Bool) (st : RedisState) : Nat :=
  if fail then 0 else st.length

/-- RedisEventBuffer.cleanup: zRemRangeByScore from -inf to cutoff
(inclusive bounds, as in Redis); returns (new state, removed count);
(st, 0) on storage failure. -/
def RedisEventBuffer.cleanup (fail : Bool) (now retentionMs : Int) (st : RedisState) :
    RedisState × Nat :=
  if fail then (st, 0)
  else
    let kept := st.filter (fun p => decide (¬ p.1 ≤ now - retentionMs))
    (kept, st.length - kept.length)

/-- RedisEventBuffer.clear: DEL of the key; failures are caught and
swallowed. -/
def RedisEventBuffer.clear (fail : Bool) (st : RedisState) : RedisState :=
  if fail then st else []

/-! Storage selector (backend/storage/eventBuffer.factory.ts) and the
module-level singleton each consumer imports. -/

/-- Which concrete Event Store implementation a buffer value is. -/
inductive StoreImpl where
  | memory
  | redis
deriving DecidableEq

/-- createEventBuffer: returns a RedisEventBuffer when the EVENT_STORAGE
environment variable is the string redis, otherwise an in-memory
EventBuffer.  The retention parameters do not affect the choice. -/
def createEventBuffer (storageType : String) : StoreImpl :=
  if storageType = "redis" then .redis else .memory

/-- The module-level singletons a consumer can import: the constant
eventBuffer exported by redisEventBuffer.ts (always a RedisEventBuffer)
or the one exported by eventBuffer.factory.ts (result of
createEventBuffer). -/
inductive BufferSingleton where
  | redisModule
  | factoryModule
deriving DecidableEq

/-- Which singleton backend/ingestion/router.ts binds: its import line is
from ../storage/redisEventBuffer.js. -/
def ingestionRouterBuffer : BufferSingleton :=
  .redisModule

/-- Which singleton backend/aggregation/metrics.ts binds (used by both
aggregateErrorMetrics and aggregateLatencyMetrics): its import line is
from ../storage/redisEventBuffer.js. -/
def aggregationBuffer : BufferSingleton :=
  .redisModule

/-- Which singleton backend/debug/router.ts binds: its import line is from
../storage/eventBuffer.factory.js. -/
def debugRouterBuffer : BufferSingleton :=
  .factoryModule

/-- The implementation behind each singleton, given the EVENT_STORAGE
configuration value: redisEventBuffer.ts exports
new RedisEventBuffer(15, 1) unconditionally, the factory module exports
createEventBuffer(15, 1). -/
def singletonImpl (storageType : String) : BufferSingleton → StoreImpl
  | .redisModule => .redis
  | .factoryModule => createEventBuffer storageType

/-! Aggregation engine (backend/aggregation/metrics.ts). -/

/-- TenantErrorMetrics from backend/aggregation/types.ts. -/
structure TenantErrorMetrics where
  tenant_id : String
  total_requests : Nat
  error_count : Nat
  error_rate : ℚ
deriving DecidableEq

/-- TenantLatencyMetrics from backend/aggregation/types.ts; the mean and
p95 fields hold the Math.round results. -/
structure TenantLatencyMetrics where
  tenant_id : String
  total_requests : Nat
  mean_latency : Int
  p95_latency : Int
deriving DecidableEq

/-- Insertion-ordered tenant grouping, as produced by a JS Map. -/
abbrev Groups := List (String × List StoredEvent)

/-- One iteration of grouping for an event whose tenant is already known to
be non-empty: append to the existing group of that tenant, or append a new
group at the end (Map.set on a fresh key). -/
def pushGroup (k : String) (e : StoredEvent) : Groups → Groups
  | [] => [(k, [e])]
  | (k₁, es) :: rest =>
    if k₁ = k then (k₁, es ++ [e]) :: rest
    else (k₁, es) :: pushGroup k e rest

/-- One loop iteration of groupEventsByTenant: events with an empty
tenant_id are skipped. -/
def groupStep (g : Groups) (e : StoredEvent) : Groups :=
  if e.tenant_id = "" then g else pushGroup e.tenant_id e g

/-- groupEventsByTenant from metrics.ts: a fold over the event list
building a Map keyed by tenant_id, iterated in insertion order. -/
def groupEventsByTenant (events : List StoredEvent) : Groups :=
  events.foldl groupStep []

/-- calculateMean from metrics.ts: sum divided by length, 0 for an empty
list. -/
def calculateMean (numbers : List ℚ) : ℚ :=
  if numbers.isEmpty then 0 else numbers.sum / (numbers.length : ℚ)

/-- calculateP95 from metrics.ts: for a single value that value, otherwise
the entry at index Math.ceil(length * 0.95) - 1 of the ascending-sorted
list; 0 for an empty list. -/
def calculateP95 (sortedLatencies : List ℚ) : ℚ :=
  if sortedLatencies.length = 0 then 0
  else if sortedLatencies.length = 1 then sortedLatencies.headD 0
  else sortedLatencies.getD ((⌈(sortedLatencies.length : ℚ) * (0.95 : ℚ)⌉ - 1).toNat) 0

/-- Math.round: round half toward positive infinity. -/
def jsRound (q : ℚ) : Int :=
  ⌊q + (0.5 : ℚ)⌋

/-- The latency filter of aggregateLatencyMetrics: keep values with
typeof number, not NaN, and at least 0. -/
def validLatencies (vals : List JsVal) : List ℚ :=
  vals.filterMap (fun v =>
    match v with
    | .num q => if 0 ≤ q then some q else none
    | .nan => none
    | .notNum => none)

/-- The comparator of aggregateErrorMetrics read as a precedes-or-ties
test: the sort callback returns b.error_rate - a.error_rate when the rates
differ and b.error_count - a.error_count otherwise, so a may stay before b
exactly when that value is nonpositive. -/
def errLe (a b : TenantErrorMetrics) : Bool :=
  if b.error_rate ≠ a.error_rate then decide (b.error_rate < a.error_rate)
  else decide (b.error_count ≤ a.error_count)

/-- The comparator of aggregateLatencyMetrics read as a precedes-or-ties
test: callback b.p95_latency - a.p95_latency. -/
def latLe (a b : TenantLatencyMetrics) : Bool :=
  decide (b.p95_latency ≤ a.p95_latency)

/-- The per-tenant record built in the aggregateErrorMetrics loop. -/
def errorMetricForTenant (tenantId : String) (tenantEvents : List StoredEvent) :
    TenantErrorMetrics :=
  let totalRequests := tenantEvents.length
  let errorCount := (tenantEvents.filter (fun e => decide (500 ≤ e.status_code))).length
  let errorRate : ℚ :=
    if 0 < totalRequests then (errorCount : ℚ) / (totalRequests : ℚ) else 0
  ⟨tenantId, totalRequests, errorCount, errorRate⟩

/-- aggregateErrorMetrics from metrics.ts, with the window of events
already fetched (the store read is modelled separately) and the JS stable
sort rendered as a stable merge sort. -/
def aggregateErrorMetrics (events : List StoredEvent) (limit : Nat) :
    List TenantErrorMetrics :=
  if events.isEmpty then []
  else
    let metrics := (groupEventsByTenant events).map
      (fun p => errorMetricForTenant p.1 p.2)
    (metrics.mergeSort errLe).take limit

/-- The per-tenant record built in the aggregateLatencyMetrics loop, none
when no valid latency remains (the tenant is skipped).  The TS code sorts
the latencies array in place, so both the mean and the p95 are computed
from the sorted array; the mean is unaffected by the order. -/
def latencyMetricForTenant (tenantId : String) (tenantEvents : List StoredEvent) :
    Option TenantLatencyMetrics :=
  let latencies := validLatencies (tenantEvents.map (fun e => e.latency_ms))
  if latencies.isEmpty then none
  else
    let sortedLatencies := latencies.mergeSort (fun a b => decide (a ≤ b))
    some ⟨tenantId, tenantEvents.length,
      jsRound (calculateMean sortedLatencies),
      jsRound (calculateP95 sortedLatencies)⟩

/-- aggregateLatencyMetrics from metrics.ts, with the window of events
already fetched. -/
def aggregateLatencyMetrics (events : List StoredEvent) (limit : Nat) :
    List TenantLatencyMetrics :=
  if events.isEmpty then []
  else
    let metrics := (groupEventsByTenant events).filterMap
      (fun p => latencyMetricForTenant p.1 p.2)
    (metrics.mergeSort latLe).take limit

/-! Helper lemmas. -/

lemma length_sub_filter {α : Type} (p : α → Bool) (l : List α) :
    l.length - (l.filter p).length = (l.filter (fun a => !(p a))).length := by
  induction l with
  | nil => simp
  | cons a t ih =>
    by_cases h : p a
    · rw [List.filter_cons, if_pos h, List.filter_cons, if_neg (by simp [h])]
      rw [List.length_cons, List.length_cons, Nat.succ_sub_succ]
      exact ih
    · rw [List.filter_cons, if_neg (by simp [h]), List.filter_cons,
        if_pos (by simp [h])]
      rw [List.length_cons, Nat.succ_sub (List.length_filter_le p t),
        List.length_cons, ih]

lemma zInsert_length (score : Int) (m : Member) (l : RedisState) :
    (zInsert score m l).length = l.length + 1 := by
  induction l with
  | nil => rfl
  | cons a t ih =>
    obtain ⟨s, v⟩ := a
    by_cases h : score < s <;> simp [zInsert, h, ih]

lemma mem_zInsert_self (score : Int) (m : Member) (l : RedisState) :
    (score, m) ∈ zInsert score m l := by
  induction l with
  | nil => simp [zInsert]
  | cons a t ih =>
    obtain ⟨s, v⟩ := a
    by_cases h : score < s <;> simp [zInsert, h, ih]

lemma zInsert_filter_ne (score : Int) (m : Member) (l : RedisState) :
    (zInsert score m l).filter (fun p => decide (p.2 ≠ m))
      = l.filter (fun p => decide (p.2 ≠ m)) := by
  induction l with
  | nil =>
    show List.filter _ [(score, m)] = _
    rw [List.filter_cons, if_neg (by simp)]
  | cons a t ih =>
    obtain ⟨s, v⟩ := a
    by_cases h : score < s
    · simp only [zInsert, if_pos h]
      rw [List.filter_cons, if_neg (by simp)]
    · simp only [zInsert, if_neg h]
      rw [List.filter_cons, List.filter_cons, ih]

lemma filter_idem {α : Type} (p : α → Bool) (l : List α) :
    (l.filter p).filter p = l.filter p := by
  rw [List.filter_filter]
  exact List.filter_congr (fun a _ => Bool.and_self _)

/-! Claim theorems. -/

/-- C1: the spec and the repository documentation say the EVENT_STORAGE
flag decides, through createEventBuffer, which Event Store backs the
singleton shared by ingestion, debug and aggregation.  In the code only
the debug router imports the factory singleton; ingestion and aggregation
bind the unconditional RedisEventBuffer singleton exported by
redisEventBuffer.ts, so under the memory configuration aggregation still
reads the Redis store while the factory produces the in-memory one. -/
theorem eventStore_wiring_divergence :
    createEventBuffer "memory" = StoreImpl.memory
    ∧ singletonImpl "memory" aggregationBuffer = StoreImpl.redis
    ∧ singletonImpl "memory" ingestionRouterBuffer = StoreImpl.redis
    ∧ singletonImpl "memory" debugRouterBuffer = StoreImpl.memory
    ∧ singletonImpl "memory" aggregationBuffer ≠ createEventBuffer "memory"
    ∧ aggregationBuffer ≠ debugRouterBuffer := by
  refine ⟨by decide, by decide, by decide, by decide, by decide, by decide⟩

/-- C2: when the storage medium is unreachable, RedisEventBuffer.addEvent
propagates a StorageError to its caller, while getEventsInWindow and
getAllEvents return the empty list and getEventCount returns 0. -/
theorem redis_write_fails_loudly_reads_degrade :
    ∀ (event : StoredEvent) (st : RedisState) (now windowMinutes : Int),
      RedisEventBuffer.addEvent true event st = .error .unreachable
      ∧ RedisEventBuffer.getEventsInWindow true now windowMinutes st = []
      ∧ RedisEventBuffer.getAllEvents true st = []
      ∧ RedisEventBuffer.getEventCount true st = 0 := by
  intro event st now windowMinutes
  exact ⟨rfl, rfl, rfl, rfl⟩

/-- An event whose timestamp sits exactly at the retention cutoff of the
C5 scenario: now = 900000, retention 5 min, cutoff 600000. -/
def cutoffEvent : StoredEvent :=
  ⟨600000, "tenant-a", "/api", "GET", 200, .nan, "svc"⟩

/-- C5 counterexample: on the Redis store, cleanup removes one member from
a state whose only member sits exactly at the cutoff, although no member
has a timestamp strictly below the cutoff - zRemRangeByScore is inclusive
of its upper bound, so the equal-cutoff event does not survive. -/
theorem cleanup_boundary_counterexample :
    (RedisEventBuffer.cleanup false 900000 300000 [(600000, .ser cutoffEvent)]).2 = 1
    ∧ ([((600000 : Int), Member.ser cutoffEvent)].filter
        (fun p => decide (p.1 < 900000 - 300000))).length = 0 := by
  constructor <;> decide

/-- The event ten minutes old in the P3 retention scenario. -/
def p3old : StoredEvent :=
  ⟨300000, "tenant-a", "/api", "GET", 200, .nan, "svc"⟩

/-- The event one minute old in the P3 retention scenario. -/
def p3recent : StoredEvent :=
  ⟨840000, "tenant-b", "/api", "GET", 200, .nan, "svc"⟩

/-- C5 amended: the in-memory cleanup removes exactly the events with
timestamp strictly below now - retentionMs (an equal-cutoff event
survives) and returns their number; the Redis cleanup removes exactly the
members with score at most now - retentionMs, inclusive, and returns
their number.  With retention 5 minutes, both remove a 10-minute-old
event (count 1) and keep a 1-minute-old event. -/
theorem cleanup_spec :
    (∀ (now retentionMs : Int) (buf : MemBuffer),
      (EventBuffer.cleanup now retentionMs buf).1
          = buf.filter (fun e => decide (now - retentionMs ≤ e.timestamp))
        ∧ (EventBuffer.cleanup now retentionMs buf).2
          = (buf.filter (fun e => decide (e.timestamp < now - retentionMs))).length)
    ∧ (∀ (now retentionMs : Int) (st : RedisState),
      (RedisEventBuffer.cleanup false now retentionMs st).1
          = st.filter (fun p => decide (now - retentionMs < p.1))
        ∧ (RedisEventBuffer.cleanup false now retentionMs st).2
          = (st.filter (fun p => decide (p.1 ≤ now - retentionMs))).length)
    ∧ EventBuffer.cleanup 900000 300000 [p3old, p3recent] = ([p3recent], 1)
    ∧ RedisEventBuffer.cleanup false 900000 300000
        [(300000, .ser p3old), (840000, .ser p3recent)]
        = ([(840000, .ser p3recent)], 1) := by
  refine ⟨?_, ?_, by decide, by decide⟩
  · intro now retentionMs buf
    refine ⟨rfl, ?_⟩
    show buf.length - _ = _
    rw [length_sub_filter]
    refine congrArg List.length (List.filter_congr (fun e _ => ?_))
    rw [← decide_not]
    exact decide_eq_decide.mpr not_le
  · intro now retentionMs st
    constructor
    · show st.filter _ = _
      refine List.filter_congr (fun p _ => ?_)
      exact decide_eq_decide.mpr not_le
    · show st.length - _ = _
      rw [length_sub_filter]
      refine congrArg List.length (List.filter_congr (fun p _ => ?_))
      rw [← decide_not]
      exact decide_eq_decide.mpr not_not

/-- A concrete event for the duplicate-insert scenario. -/
def dupA : StoredEvent :=
  ⟨1000, "tenant-a", "/api", "GET", 200, .nan, "svc"⟩

/-- A second event with the same timestamp as dupA but different content. -/
def dupB : StoredEvent :=
  ⟨1000, "tenant-b", "/api", "GET", 200, .nan, "svc"⟩

/-- C7 counterexample: on the Redis store, adding the same event twice to
an empty store leaves one stored copy, not two - the serialized member is
the sorted-set key and ZADD replaces it. -/
theorem addEvent_duplicate_counterexample :
    ((RedisEventBuffer.addEvent false dupA []).bind
        (RedisEventBuffer.addEvent false dupA)).map
        (RedisEventBuffer.getEventCount false)
      = .ok 1 := by
  rfl

/-- C7 amended: both implementations accept a repeated addEvent without
error.  The in-memory store keeps both copies, so its count grows by 2;
the Redis store keys members by their serialized content, so a repeated
identical event is collapsed to one member (the count is the number of
distinct other members plus one), while two events with the same timestamp
but different content are both kept. -/
theorem addEvent_duplicate_spec :
    (∀ (buf : MemBuffer) (e : StoredEvent),
      EventBuffer.getEventCount (EventBuffer.addEvent (EventBuffer.addEvent buf e) e)
        = EventBuffer.getEventCount buf + 2)
    ∧ (∀ (st : RedisState) (e : StoredEvent),
        (RedisEventBuffer.addEvent false e st).isOk = true)
    ∧ (∀ (st : RedisState) (e : StoredEvent),
        ((RedisEventBuffer.addEvent false e st).bind
            (RedisEventBuffer.addEvent false e)).map
            (RedisEventBuffer.getEventCount false)
          = .ok ((st.filter (fun p => decide (p.2 ≠ Member.ser e))).length + 1))
    ∧ (RedisEventBuffer.addEvent false dupB (zAdd dupA.timestamp (.ser dupA) [])).map
        (RedisEventBuffer.getEventCount false) = .ok 2 := by
  refine ⟨?_, ?_, ?_, by rfl⟩
  · intro buf e
    simp [EventBuffer.getEventCount, EventBuffer.addEvent]
  · intro st e
    rfl
  · intro st e
    show Except.ok (RedisEventBuffer.getEventCount false
      (zAdd e.timestamp (.ser e) (zAdd e.timestamp (.ser e) st))) = _
    show Except.ok (zAdd e.timestamp (.ser e) (zAdd e.timestamp (.ser e) st)).length = _
    rw [show zAdd e.timestamp (.ser e) (zAdd e.timestamp (.ser e) st)
        = zInsert e.timestamp (.ser e)
            ((zInsert e.timestamp (.ser e)
              (st.filter (fun p => decide (p.2 ≠ .ser e)))).filter
                (fun p => decide (p.2 ≠ .ser e))) from rfl]
    rw [zInsert_filter_ne, filter_idem, zInsert_length]

lemma filterMap_length_lt {α β : Type} (f : α → Option β) (l : List α)
    (h : ∃ a ∈ l, f a = none) : (l.filterMap f).length < l.length := by
  induction l with
  | nil => simp at h
  | cons a t ih =>
    obtain ⟨x, hx, hfx⟩ := h
    rw [List.filterMap_cons]
    rcases List.mem_cons.mp hx with rfl | hxt
    · rw [hfx]
      exact Nat.lt_succ_of_le (List.length_filterMap_le f t)
    · cases hfa : f a
      · exact Nat.lt_succ_of_lt (ih ⟨x, hxt, hfx⟩)
      · rw [List.length_cons, List.length_cons]
        exact Nat.succ_lt_succ (ih ⟨x, hxt, hfx⟩)

lemma mem_zInsert {score : Int} {m : Member} {l : RedisState} {q : Int × Member}
    (h : q ∈ zInsert score m l) : q = (score, m) ∨ q ∈ l := by
  induction l with
  | nil =>
    simp only [zInsert] at h
    simp at h
    exact Or.inl h
  | cons a t ih =>
    obtain ⟨s, v⟩ := a
    by_cases hs : score < s
    · simp only [zInsert, if_pos hs] at h
      rcases List.mem_cons.mp h with rfl | h₂
      · exact Or.inl rfl
      · exact Or.inr h₂
    · simp only [zInsert, if_neg hs] at h
      rcases List.mem_cons.mp h with rfl | h₂
      · exact Or.inr (List.mem_cons_self _ _)
      · rcases ih h₂ with h₃ | h₃
        · exact Or.inl h₃
        · exact Or.inr (List.mem_cons_of_mem _ h₃)

lemma zInsert_pairwise {score : Int} {m : Member} {l : RedisState}
    (h : List.Pairwise (fun p q => p.1 ≤ q.1) l) :
    List.Pairwise (fun p q => p.1 ≤ q.1) (zInsert score m l) := by
  induction l with
  | nil => simp [zInsert]
  | cons a t ih =>
    obtain ⟨s, v⟩ := a
    obtain ⟨hhead, htail⟩ := List.pairwise_cons.mp h
    by_cases hs : score < s
    · simp only [zInsert, if_pos hs]
      refine List.pairwise_cons.mpr ⟨?_, h⟩
      intro q hq
      rcases List.mem_cons.mp hq with rfl | hqt
      · exact le_of_lt hs
      · exact le_trans (le_of_lt hs) (hhead q hqt)
    · simp only [zInsert, if_neg hs]
      refine List.pairwise_cons.mpr ⟨?_, ih htail⟩
      intro q hq
      rcases mem_zInsert hq with rfl | hqt
      · exact not_lt.mp hs
      · exact hhead q hqt

lemma zAdd_pairwise {score : Int} {m : Member} {st : RedisState}
    (h : List.Pairwise (fun p q => p.1 ≤ q.1) st) :
    List.Pairwise (fun p q => p.1 ≤ q.1) (zAdd score m st) :=
  zInsert_pairwise (h.filter _)

/-- C10: on the Redis store, getEventCount counts raw members (zCard)
while getAllEvents drops members that fail to deserialize, so a state
holding such a member makes the count strictly larger than the listing. -/
theorem count_vs_listing_spec (st : RedisState)
    (h : ∃ p ∈ st, deserializeEvent p.2 = none) :
    (RedisEventBuffer.getAllEvents false st).length
      < RedisEventBuffer.getEventCount false st := by
  show ((st.map (fun p => p.2)).filterMap deserializeEvent).length < st.length
  have hlt := filterMap_length_lt deserializeEvent (st.map (fun p => p.2)) ?_
  · simpa using hlt
  · obtain ⟨p, hp, hd⟩ := h
    exact ⟨p.2, List.mem_map.mpr ⟨p, hp, rfl⟩, hd⟩

/-- C10 witness: a store holding one unparseable member has count 1 and an
empty listing. -/
theorem count_vs_listing_witness :
    (RedisEventBuffer.getAllEvents false [((5 : Int), Member.corrupt 0)]).length
      < RedisEventBuffer.getEventCount false [((5 : Int), Member.corrupt 0)] :=
  count_vs_listing_spec _ ⟨((5 : Int), Member.corrupt 0), by simp, rfl⟩

/-- C6: on both implementations getEventsInWindow keeps exactly the stored
events whose timestamp is at least now minus windowMinutes * 60000,
inclusive of the lower bound.  For the Redis store the state is assumed
well formed: every member is a serialized event whose score is its
timestamp (the only states addEvent produces from validated events). -/
theorem getEventsInWindow_boundary (now windowMinutes : Int) (buf : MemBuffer)
    (st : RedisState)
    (hwf : ∀ p ∈ st, ∃ e, p.2 = Member.ser e ∧ p.1 = e.timestamp
        ∧ e.timestamp ≠ 0 ∧ e.tenant_id ≠ "") :
    (∀ e, e ∈ EventBuffer.getEventsInWindow now windowMinutes buf
        ↔ e ∈ buf ∧ now - windowMinutes * 60 * 1000 ≤ e.timestamp)
    ∧ (∀ e, e ∈ RedisEventBuffer.getEventsInWindow false now windowMinutes st
        ↔ (e.timestamp, Member.ser e) ∈ st
          ∧ now - windowMinutes * 60 * 1000 ≤ e.timestamp) := by
  constructor
  · intro e
    simp [EventBuffer.getEventsInWindow, List.mem_filter]
  · intro e
    show e ∈ ((st.filter _).map _).filterMap deserializeEvent ↔ _
    rw [List.mem_filterMap]
    constructor
    · rintro ⟨m, hm, hd⟩
      obtain ⟨p, hpf, rfl⟩ := List.mem_map.mp hm
      obtain ⟨hpst, hpcond⟩ := List.mem_filter.mp hpf
      obtain ⟨e₁, hser, hscore, hts, htid⟩ := hwf p hpst
      rw [hser] at hd
      rw [show deserializeEvent (Member.ser e₁)
          = (if e₁.timestamp = 0 ∨ e₁.tenant_id = "" then none else some e₁)
          from rfl, if_neg (by tauto)] at hd
      obtain rfl := Option.some_injective _ hd
      constructor
      · have hp_eq : p = (e₁.timestamp, Member.ser e₁) := by
          obtain ⟨p1, p2⟩ := p
          simp only at hser hscore
          rw [hser, hscore]
        rw [← hp_eq]
        exact hpst
      · have := of_decide_eq_true hpcond
        rw [hscore] at this
        exact this
    · rintro ⟨hmem, hbound⟩
      obtain ⟨e₁, hser, hscore, hts, htid⟩ := hwf _ hmem
      obtain rfl : e = e₁ := Member.ser.inj hser
      refine ⟨Member.ser e, List.mem_map.mpr ⟨(e.timestamp, Member.ser e),
        List.mem_filter.mpr ⟨hmem, decide_eq_true hbound⟩, rfl⟩, ?_⟩
      show (if e.timestamp = 0 ∨ e.tenant_id = "" then none else some e) = some e
      rw [if_neg (by tauto)]

/-- The event four minutes old in the P2 window scenario (now 600000). -/
def winE4 : StoredEvent :=
  ⟨360000, "tenant-a", "/api", "GET", 200, .nan, "svc"⟩

/-- The event six minutes old in the P2 window scenario. -/
def winE6 : StoredEvent :=
  ⟨240000, "tenant-b", "/api", "GET", 200, .nan, "svc"⟩

/-- C6 witness: with events four and six minutes old, a five-minute window
keeps the first and drops the second, on both implementations. -/
theorem getEventsInWindow_boundary_witness :
    winE4 ∈ EventBuffer.getEventsInWindow 600000 5 [winE4, winE6]
    ∧ winE4 ∈ RedisEventBuffer.getEventsInWindow false 600000 5
        [(240000, .ser winE6), (360000, .ser winE4)]
    ∧ winE6 ∉ EventBuffer.getEventsInWindow 600000 5 [winE4, winE6]
    ∧ winE6 ∉ RedisEventBuffer.getEventsInWindow false 600000 5
        [(240000, .ser winE6), (360000, .ser winE4)] := by
  have h := getEventsInWindow_boundary 600000 5 [winE4, winE6]
    [(240000, .ser winE6), (360000, .ser winE4)] ?_
  · refine ⟨(h.1 winE4).mpr ⟨by simp, by decide⟩,
      (h.2 winE4).mpr ⟨by decide, by decide⟩, ?_, ?_⟩
    · intro hmem
      exact absurd ((h.1 winE6).mp hmem).2 (by decide)
    · intro hmem
      exact absurd ((h.2 winE6).mp hmem).2 (by decide)
  · intro p hp
    rcases List.mem_cons.mp hp with rfl | hp₂
    · exact ⟨winE6, rfl, rfl, by decide, by decide⟩
    · rcases List.mem_cons.mp hp₂ with rfl | hp₃
      · exact ⟨winE4, rfl, rfl, by decide, by decide⟩
      · simp at hp₃

/-- C9: a validated event (non-empty tenant, timestamp, endpoint) added by
addEvent is returned, with all its fields intact, by any
getEventsInWindow whose window covers its timestamp, on both
implementations. -/
theorem roundTrip_spec (e : StoredEvent) (now windowMinutes : Int)
    (buf : MemBuffer) (st st' : RedisState)
    (htid : e.tenant_id ≠ "") (hts : e.timestamp ≠ 0) (hend : e.endpoint ≠ "")
    (hcover : now - windowMinutes * 60 * 1000 ≤ e.timestamp)
    (hadd : RedisEventBuffer.addEvent false e st = .ok st') :
    e ∈ EventBuffer.getEventsInWindow now windowMinutes (EventBuffer.addEvent buf e)
    ∧ e ∈ RedisEventBuffer.getEventsInWindow false now windowMinutes st' := by
  constructor
  · refine List.mem_filter.mpr ⟨?_, decide_eq_true hcover⟩
    simp [EventBuffer.addEvent]
  · obtain rfl : st' = zAdd e.timestamp (.ser e) st := by
      have hok : (Except.ok (zAdd e.timestamp (.ser e) st)
          : Except StorageError RedisState) = .ok st' := hadd
      exact (Except.ok.inj hok).symm
    refine List.mem_filterMap.mpr ⟨Member.ser e, ?_, ?_⟩
    · refine List.mem_map.mpr ⟨(e.timestamp, Member.ser e), ?_, rfl⟩
      exact List.mem_filter.mpr ⟨mem_zInsert_self _ _ _, decide_eq_true hcover⟩
    · show (if e.timestamp = 0 ∨ e.tenant_id = "" then none else some e) = some e
      rw [if_neg (by tauto)]

/-- The later event of the out-of-order insertion scenario. -/
def orderLate : StoredEvent :=
  ⟨2000, "tenant-a", "/api", "GET", 200, .nan, "svc"⟩

/-- The earlier event of the out-of-order insertion scenario. -/
def orderEarly : StoredEvent :=
  ⟨1000, "tenant-b", "/api", "GET", 200, .nan, "svc"⟩

/-- C8 counterexample: the in-memory store returns insertion order, not
timestamp order - inserting a later event first makes getAllEvents return
a sequence that is not sorted oldest-first. -/
theorem ordering_counterexample :
    ¬ List.Sorted (fun a b : StoredEvent => a.timestamp ≤ b.timestamp)
      (EventBuffer.getAllEvents
        (EventBuffer.addEvent (EventBuffer.addEvent EventBuffer.clear orderLate)
          orderEarly)) := by
  decide

/-- C8 amended: the Redis store keeps its state ordered by score (zAdd
preserves the order), and when every member's deserialized timestamp
equals its score both getAllEvents and getEventsInWindow return
timestamp-sorted sequences for every insertion order; the in-memory store
returns insertion order, which is timestamp-sorted only when the buffer
already is. -/
theorem ordering_spec :
    (∀ buf : MemBuffer, EventBuffer.getAllEvents buf = buf)
    ∧ (∀ (buf : MemBuffer) (now windowMinutes : Int),
        List.Sorted (fun a b : StoredEvent => a.timestamp ≤ b.timestamp) buf →
        List.Sorted (fun a b : StoredEvent => a.timestamp ≤ b.timestamp)
          (EventBuffer.getEventsInWindow now windowMinutes buf))
    ∧ (∀ (st : RedisState) (now windowMinutes : Int),
        List.Pairwise (fun p q : Int × Member => p.1 ≤ q.1) st →
        (∀ p ∈ st, ∀ e, deserializeEvent p.2 = some e → e.timestamp = p.1) →
        List.Sorted (fun a b : StoredEvent => a.timestamp ≤ b.timestamp)
          (RedisEventBuffer.getAllEvents false st)
        ∧ List.Sorted (fun a b : StoredEvent => a.timestamp ≤ b.timestamp)
          (RedisEventBuffer.getEventsInWindow false now windowMinutes st))
    ∧ (∀ (score : Int) (m : Member) (st : RedisState),
        List.Pairwise (fun p q : Int × Member => p.1 ≤ q.1) st →
        List.Pairwise (fun p q : Int × Member => p.1 ≤ q.1) (zAdd score m st)) := by
  refine ⟨fun buf => rfl, ?_, ?_, fun score m st h => zAdd_pairwise h⟩
  · intro buf now windowMinutes hsorted
    exact hsorted.filter _
  · intro st now windowMinutes hsorted hts
    have key : ∀ (l : RedisState), List.Pairwise (fun p q : Int × Member => p.1 ≤ q.1) l →
        (∀ p ∈ l, ∀ e, deserializeEvent p.2 = some e → e.timestamp = p.1) →
        List.Sorted (fun a b : StoredEvent => a.timestamp ≤ b.timestamp)
          ((l.map (fun p => p.2)).filterMap deserializeEvent) := by
      intro l hl hlts
      rw [List.Sorted, List.pairwise_filterMap, List.pairwise_map]
      refine hl.imp_of_mem ?_
      intro p q hp hq hle e he e₁ he₁
      rw [Option.mem_def] at he he₁
      rw [hlts p hp e he, hlts q hq e₁ he₁]
      exact hle
    refine ⟨key st hsorted hts, key _ (hsorted.filter _) ?_⟩
    intro p hp
    exact hts p (List.mem_filter.mp hp).1

/-- C8 witness: a score-sorted two-member Redis state yields a
timestamp-sorted getAllEvents, and zAdd keeps the state score-sorted. -/
theorem ordering_spec_witness :
    List.Sorted (fun a b : StoredEvent => a.timestamp ≤ b.timestamp)
      (RedisEventBuffer.getAllEvents false
        [(1000, .ser orderEarly), (2000, .ser orderLate)])
    ∧ List.Pairwise (fun p q : Int × Member => p.1 ≤ q.1)
      (zAdd 1500 (Member.corrupt 7)
        [(1000, .ser orderEarly), (2000, .ser orderLate)]) := by
  have hsorted : List.Pairwise (fun p q : Int × Member => p.1 ≤ q.1)
      ([(1000, .ser orderEarly), (2000, .ser orderLate)] : RedisState) := by
    decide
  have hts : ∀ p ∈ ([(1000, .ser orderEarly), (2000, .ser orderLate)] : RedisState),
      ∀ e, deserializeEvent p.2 = some e → e.timestamp = p.1 := by
    intro p hp e he
    rcases List.mem_cons.mp hp with rfl | hp₂
    · cases Option.some_injective _ he
      rfl
    · rcases List.mem_cons.mp hp₂ with rfl | hp₃
      · cases Option.some_injective _ he
        rfl
      · simp at hp₃
  exact ⟨((ordering_spec.2.2.1 _ 0 0 hsorted hts).1),
    ordering_spec.2.2.2 1500 (Member.corrupt 7) _ hsorted⟩

/-- C9 witness: a four-minute-old event added to either empty store is
returned intact by a fifteen-minute window. -/
theorem roundTrip_witness :
    winE4 ∈ EventBuffer.getEventsInWindow 600000 15 (EventBuffer.addEvent [] winE4)
    ∧ winE4 ∈ RedisEventBuffer.getEventsInWindow false 600000 15
        [(360000, Member.ser winE4)] := by
  exact roundTrip_spec winE4 600000 15 [] [] [(360000, Member.ser winE4)]
    (by decide) (by decide) (by decide) (by decide) rfl

/-! Characterization of groupEventsByTenant: every entry of the grouping
holds a non-empty tenant key and exactly the events of that tenant, in
order; keys are distinct and cover every non-empty tenant occurring in
the processed events. -/

def GroupsChar (processed : List StoredEvent) (g : Groups) : Prop :=
  (∀ p ∈ g, p.1 ≠ ""
      ∧ p.2 = processed.filter (fun e => decide (e.tenant_id = p.1))
      ∧ p.2 ≠ [])
  ∧ (g.map Prod.fst).Nodup
  ∧ ∀ k, k ≠ "" → (∃ e ∈ processed, e.tenant_id = k) → k ∈ g.map Prod.fst

lemma pushGroup_keys (k : String) (e : StoredEvent) (g : Groups) :
    (pushGroup k e g).map Prod.fst =
      if k ∈ g.map Prod.fst then g.map Prod.fst
      else g.map Prod.fst ++ [k] := by
  induction g with
  | nil => simp [pushGroup]
  | cons a t ih =>
    obtain ⟨k₁, es⟩ := a
    by_cases h : k₁ = k
    · subst h
      simp [pushGroup]
    · simp only [pushGroup, if_neg h, List.map_cons]
      rw [ih]
      by_cases hm : k ∈ t.map Prod.fst
      · rw [if_pos hm, if_pos (by exact List.mem_cons_of_mem _ hm)]
      · rw [if_neg hm, if_neg ?_]
        · simp
        · intro hmem
          rcases List.mem_cons.mp hmem with h₁ | h₁
          · exact h h₁.symm
          · exact hm h₁

lemma pushGroup_mem_char {k : String} {e : StoredEvent} {g : Groups}
    {p : String × List StoredEvent}
    (hnd : (g.map Prod.fst).Nodup) (hp : p ∈ pushGroup k e g) :
    (p.1 ≠ k ∧ p ∈ g)
    ∨ (p = (k, [e]) ∧ k ∉ g.map Prod.fst)
    ∨ (∃ es, (k, es) ∈ g ∧ p = (k, es ++ [e])) := by
  induction g with
  | nil =>
    simp only [pushGroup] at hp
    rcases List.mem_singleton.mp hp with rfl
    exact Or.inr (Or.inl ⟨rfl, by simp⟩)
  | cons a t ih =>
    obtain ⟨k₁, es₁⟩ := a
    rw [List.map_cons, List.nodup_cons] at hnd
    by_cases h : k₁ = k
    · subst h
      simp only [pushGroup, if_pos rfl] at hp
      rcases List.mem_cons.mp hp with rfl | hpt
      · exact Or.inr (Or.inr ⟨es₁, List.mem_cons_self _ _, rfl⟩)
      · by_cases hpk : p.1 = k₁
        · exact absurd (List.mem_map.mpr ⟨p, hpt, hpk⟩) hnd.1
        · exact Or.inl ⟨hpk, List.mem_cons_of_mem _ hpt⟩
    · simp only [pushGroup, if_neg h] at hp
      rcases List.mem_cons.mp hp with rfl | hpt
      · exact Or.inl ⟨fun hh => h (show k₁ = k from hh), List.mem_cons_self _ _⟩
      · rcases ih hnd.2 hpt with ⟨hne, hmem⟩ | ⟨heq, hnotin⟩ | ⟨es, hmem, heq⟩
        · exact Or.inl ⟨hne, List.mem_cons_of_mem _ hmem⟩
        · refine Or.inr (Or.inl ⟨heq, ?_⟩)
          intro hmem
          rcases List.mem_cons.mp hmem with h₁ | h₁
          · exact h h₁.symm
          · exact hnotin h₁
        · exact Or.inr (Or.inr ⟨es, List.mem_cons_of_mem _ hmem, heq⟩)

lemma groupStep_char {processed : List StoredEvent} {g : Groups}
    (h : GroupsChar processed g) (e : StoredEvent) :
    GroupsChar (processed ++ [e]) (groupStep g e) := by
  obtain ⟨hent, hnd, hcover⟩ := h
  by_cases he : e.tenant_id = ""
  · rw [groupStep, if_pos he]
    refine ⟨?_, hnd, ?_⟩
    · intro p hp
      obtain ⟨hk, hfil, hne⟩ := hent p hp
      refine ⟨hk, ?_, hne⟩
      rw [List.filter_append, hfil]
      rw [show List.filter (fun e => decide (e.tenant_id = p.1)) [e] = [] from ?_]
      · simp
      · rw [List.filter_cons, if_neg (by simp [he]; exact fun hh => hk hh.symm)]
        rfl
    · intro k hk ⟨e₁, he₁, hk₁⟩
      rcases List.mem_append.mp he₁ with h₁ | h₁
      · exact hcover k hk ⟨e₁, h₁, hk₁⟩
      · rcases List.mem_singleton.mp h₁ with rfl
        exact absurd (hk₁ ▸ he) hk
  · rw [groupStep, if_neg he]
    refine ⟨?_, ?_, ?_⟩
    · intro p hp
      rcases pushGroup_mem_char hnd hp with ⟨hne, hmem⟩ | ⟨heq, hnotin⟩
        | ⟨es, hmem, heq⟩
      · obtain ⟨hk, hfil, hne₂⟩ := hent p hmem
        refine ⟨hk, ?_, hne₂⟩
        rw [List.filter_append, hfil]
        rw [show List.filter (fun e₁ => decide (e₁.tenant_id = p.1)) [e] = []
          from ?_]
        · simp
        · rw [List.filter_cons, if_neg (by simpa using fun hh => hne hh.symm)]
          rfl
      · subst heq
        refine ⟨he, ?_, by simp⟩
        rw [List.filter_append]
        rw [show List.filter (fun e₁ => decide (e₁.tenant_id = e.tenant_id))
            processed = [] from ?_]
        · rw [List.filter_cons, if_pos (by simp)]
          rfl
        · rw [List.filter_eq_nil_iff]
          intro x hx
          simp only [decide_eq_true_eq]
          intro hx₁
          exact hnotin (hcover e.tenant_id he ⟨x, hx, hx₁⟩)
      · obtain ⟨hk, hfil, _⟩ := hent (e.tenant_id, es) hmem
        subst heq
        refine ⟨he, ?_, by simp⟩
        rw [List.filter_append]
        simp only at hfil
        rw [hfil]
        rw [List.filter_cons, if_pos (by simp)]
        rfl
    · rw [pushGroup_keys]
      by_cases hm : e.tenant_id ∈ g.map Prod.fst
      · rw [if_pos hm]
        exact hnd
      · rw [if_neg hm]
        simp [List.nodup_append, hnd, hm]
    · intro k hk ⟨e₁, he₁, hk₁⟩
      rw [pushGroup_keys]
      rcases List.mem_append.mp he₁ with h₁ | h₁
      · have := hcover k hk ⟨e₁, h₁, hk₁⟩
        by_cases hm : e.tenant_id ∈ g.map Prod.fst
        · rwa [if_pos hm]
        · rw [if_neg hm]
          exact List.mem_append_left _ this
      · rcases List.mem_singleton.mp h₁ with rfl
        subst hk₁
        by_cases hm : e₁.tenant_id ∈ g.map Prod.fst
        · rwa [if_pos hm]
        · rw [if_neg hm]
          exact List.mem_append_right _ (List.mem_singleton.mpr rfl)

lemma groupsChar_foldl :
    ∀ (events : List StoredEvent) (g : Groups) (processed : List StoredEvent),
      GroupsChar processed g →
      GroupsChar (processed ++ events) (events.foldl groupStep g) := by
  intro events
  induction events with
  | nil => intro g processed h; simpa using h
  | cons e rest ih =>
    intro g processed h
    rw [List.foldl_cons]
    have h₂ := ih (groupStep g e) (processed ++ [e]) (groupStep_char h e)
    rwa [List.append_assoc, List.singleton_append] at h₂

lemma groupEventsByTenant_char (events : List StoredEvent) :
    GroupsChar events (groupEventsByTenant events) := by
  have h := groupsChar_foldl events [] [] ⟨by simp, by simp, ?_⟩
  · simpa using h
  · rintro k hk ⟨e, he, _⟩
    simp at he

/-- The ranking order of aggregateErrorMetrics results: strictly higher
error rate first, ties by higher error count. -/
def errRank (a b : TenantErrorMetrics) : Prop :=
  b.error_rate < a.error_rate
  ∨ (b.error_rate = a.error_rate ∧ b.error_count ≤ a.error_count)

/-- The ranking order of aggregateLatencyMetrics results: higher p95
first. -/
def latRank (a b : TenantLatencyMetrics) : Prop :=
  b.p95_latency ≤ a.p95_latency

lemma errLe_iff (a b : TenantErrorMetrics) : errLe a b = true ↔ errRank a b := by
  rw [errLe, errRank]
  by_cases h : b.error_rate = a.error_rate
  · rw [if_neg (by simpa using h)]
    simp [h, lt_irrefl]
  · rw [if_pos (by simpa using h)]
    simp [h]

lemma errLe_trans (a b c : TenantErrorMetrics)
    (hab : errLe a b = true) (hbc : errLe b c = true) : errLe a c = true := by
  rw [errLe_iff] at hab hbc ⊢
  rcases hab with h1 | ⟨h1, h2⟩ <;> rcases hbc with h3 | ⟨h3, h4⟩
  · exact Or.inl (lt_trans h3 h1)
  · exact Or.inl (lt_of_le_of_lt h3.le h1)
  · exact Or.inl (lt_of_lt_of_le h3 h1.le)
  · exact Or.inr ⟨h3.trans h1, le_trans h4 h2⟩

lemma errLe_total (a b : TenantErrorMetrics) :
    (errLe a b || errLe b a) = true := by
  rw [Bool.or_eq_true, errLe_iff, errLe_iff, errRank, errRank]
  rcases lt_trichotomy a.error_rate b.error_rate with h | h | h
  · exact Or.inr (Or.inl h)
  · rcases le_total a.error_count b.error_count with hc | hc
    · exact Or.inr (Or.inr ⟨h, hc⟩)
    · exact Or.inl (Or.inr ⟨h.symm, hc⟩)
  · exact Or.inl (Or.inl h)

lemma latLe_iff (a b : TenantLatencyMetrics) : latLe a b = true ↔ latRank a b := by
  rw [latLe, latRank]
  simp

lemma latLe_trans (a b c : TenantLatencyMetrics)
    (hab : latLe a b = true) (hbc : latLe b c = true) : latLe a c = true := by
  rw [latLe_iff] at hab hbc ⊢
  exact le_trans hbc hab

lemma latLe_total (a b : TenantLatencyMetrics) :
    (latLe a b || latLe b a) = true := by
  rw [Bool.or_eq_true, latLe_iff, latLe_iff]
  rcases le_total b.p95_latency a.p95_latency with h | h
  · exact Or.inl h
  · exact Or.inr h

/-- C3: aggregateErrorMetrics keeps at most limit entries, ranks them
descending by error rate with ties broken by descending error count, and
reports for each listed tenant exactly its event count, its count of
status codes of 500 and above, and their quotient as the error rate;
every non-empty tenant among the events is listed when the limit is not
exceeded. -/
theorem aggregateErrorMetrics_spec (events : List StoredEvent) (limit : Nat) :
    (aggregateErrorMetrics events limit).length ≤ limit
    ∧ List.Pairwise errRank (aggregateErrorMetrics events limit)
    ∧ (∀ m ∈ aggregateErrorMetrics events limit,
        m.tenant_id ≠ ""
        ∧ 0 < m.total_requests
        ∧ m.total_requests
            = (events.filter (fun e => decide (e.tenant_id = m.tenant_id))).length
        ∧ m.error_count
            = ((events.filter (fun e => decide (e.tenant_id = m.tenant_id))).filter
                (fun e => decide (500 ≤ e.status_code))).length
        ∧ m.error_rate = (m.error_count : ℚ) / (m.total_requests : ℚ))
    ∧ ((groupEventsByTenant events).length ≤ limit →
        ∀ k, k ≠ "" → (∃ e ∈ events, e.tenant_id = k) →
          ∃ m ∈ aggregateErrorMetrics events limit, m.tenant_id = k) := by
  by_cases hev : events.isEmpty
  · have hnil : events = [] := List.isEmpty_iff.mp hev
    subst hnil
    refine ⟨by simp [aggregateErrorMetrics], by simp [aggregateErrorMetrics],
      ?_, ?_⟩
    · intro m hm
      simp [aggregateErrorMetrics] at hm
    · rintro _ k hk ⟨e, he, _⟩
      simp at he
  · have hres : aggregateErrorMetrics events limit
        = (((groupEventsByTenant events).map
            (fun p => errorMetricForTenant p.1 p.2)).mergeSort errLe).take limit := by
      rw [aggregateErrorMetrics, if_neg (by simpa using hev)]
    obtain ⟨hent, hnd, hcover⟩ := groupEventsByTenant_char events
    have hsorted := List.sorted_mergeSort errLe_trans errLe_total
      ((groupEventsByTenant events).map (fun p => errorMetricForTenant p.1 p.2))
    refine ⟨?_, ?_, ?_, ?_⟩
    · rw [hres, List.length_take]
      exact min_le_left _ _
    · rw [hres]
      exact ((List.Pairwise.sublist (List.take_sublist _ _) hsorted).imp
        (fun h => (errLe_iff _ _).mp h))
    · intro m hm
      rw [hres] at hm
      have hm₁ := (List.mergeSort_perm _ errLe).mem_iff.mp
        (List.take_subset _ _ hm)
      obtain ⟨p, hpG, rfl⟩ := List.mem_map.mp hm₁
      obtain ⟨hk, hfil, hne⟩ := hent p hpG
      have hpos : 0 < p.2.length := List.length_pos.mpr hne
      refine ⟨hk, hpos, ?_, ?_, ?_⟩
      · show p.2.length
            = (events.filter (fun e => decide (e.tenant_id = p.1))).length
        rw [hfil]
      · show (p.2.filter (fun e => decide (500 ≤ e.status_code))).length
            = ((events.filter (fun e => decide (e.tenant_id = p.1))).filter
                (fun e => decide (500 ≤ e.status_code))).length
        rw [hfil]
      · show (if 0 < p.2.length
            then ((p.2.filter (fun e => decide (500 ≤ e.status_code))).length : ℚ)
              / (p.2.length : ℚ) else 0)
            = (((p.2.filter (fun e => decide (500 ≤ e.status_code))).length : ℚ)
              / (p.2.length : ℚ))
        rw [if_pos hpos]
    · intro hlim k hk hex
      have hkeys := hcover k hk hex
      obtain ⟨p, hpG, hpk⟩ := List.mem_map.mp hkeys
      refine ⟨errorMetricForTenant p.1 p.2, ?_, hpk⟩
      rw [hres]
      have hlen : (((groupEventsByTenant events).map
          (fun p => errorMetricForTenant p.1 p.2)).mergeSort errLe).length
          ≤ limit := by
        rw [(List.mergeSort_perm _ errLe).length_eq, List.length_map]
        exact hlim
      rw [List.take_of_length_le hlen]
      exact (List.mergeSort_perm _ errLe).mem_iff.mpr
        (List.mem_map.mpr ⟨p, hpG, rfl⟩)

/-- A single error event used to instantiate the C3 theorem. -/
def c3e : StoredEvent :=
  ⟨1000, "tenant-a", "/api", "GET", 500, .nan, "svc"⟩

/-- C3 witness: the theorem applied to one stored error event, including
the guarded completeness clause and the per-entry error-rate equation. -/
theorem aggregateErrorMetrics_spec_witness :
    (aggregateErrorMetrics [c3e] 10).length ≤ 10
    ∧ (errorMetricForTenant "tenant-a" [c3e]).error_rate
        = ((errorMetricForTenant "tenant-a" [c3e]).error_count : ℚ)
          / ((errorMetricForTenant "tenant-a" [c3e]).total_requests : ℚ) := by
  have h := aggregateErrorMetrics_spec [c3e] 10
  have hm : errorMetricForTenant "tenant-a" [c3e] ∈ aggregateErrorMetrics [c3e] 10 := by
    simp [aggregateErrorMetrics, groupEventsByTenant, groupStep, pushGroup,
      List.mergeSort, c3e]
  exact ⟨h.1, (h.2.2.1 _ hm).2.2.2.2⟩

lemma ratSort_sorted (l : List ℚ) :
    List.Sorted (fun a b : ℚ => a ≤ b)
      (l.mergeSort (fun a b => decide (a ≤ b))) := by
  refine (List.sorted_mergeSort ?_ ?_ l).imp (fun h => of_decide_eq_true h)
  · intro a b c hab hbc
    exact decide_eq_true (le_trans (of_decide_eq_true hab) (of_decide_eq_true hbc))
  · intro a b
    rw [Bool.or_eq_true]
    rcases le_total a b with h | h
    · exact Or.inl (decide_eq_true h)
    · exact Or.inr (decide_eq_true h)

/-- C4: aggregateLatencyMetrics keeps at most limit entries, ranks them
descending by p95, lists only tenants with at least one valid latency
(numeric, not NaN, nonnegative) while total_requests counts all of the
tenant's events, and computes the mean and the p95 - the entry at index
the ceiling of n times 0.95, minus one, of the ascending-sorted valid
latencies, the single value when n is 1 - rounded to the nearest
millisecond. -/
theorem aggregateLatencyMetrics_spec (events : List StoredEvent) (limit : Nat) :
    (aggregateLatencyMetrics events limit).length ≤ limit
    ∧ List.Pairwise latRank (aggregateLatencyMetrics events limit)
    ∧ ∀ m ∈ aggregateLatencyMetrics events limit,
        m.tenant_id ≠ ""
        ∧ m.total_requests
            = (events.filter (fun e => decide (e.tenant_id = m.tenant_id))).length
        ∧ validLatencies ((events.filter
            (fun e => decide (e.tenant_id = m.tenant_id))).map
            (fun e => e.latency_ms)) ≠ []
        ∧ ∀ l, l.Perm (validLatencies ((events.filter
              (fun e => decide (e.tenant_id = m.tenant_id))).map
              (fun e => e.latency_ms))) →
            List.Sorted (fun a b : ℚ => a ≤ b) l →
            m.mean_latency = jsRound (l.sum / (l.length : ℚ))
            ∧ m.p95_latency = jsRound (if l.length = 1 then l.headD 0
                else l.getD ((⌈(l.length : ℚ) * (0.95 : ℚ)⌉ - 1).toNat) 0) := by
  by_cases hev : events.isEmpty
  · have hnil : events = [] := List.isEmpty_iff.mp hev
    subst hnil
    refine ⟨by simp [aggregateLatencyMetrics],
      by simp [aggregateLatencyMetrics], ?_⟩
    intro m hm
    simp [aggregateLatencyMetrics] at hm
  · have hres : aggregateLatencyMetrics events limit
        = (((groupEventsByTenant events).filterMap
            (fun p => latencyMetricForTenant p.1 p.2)).mergeSort latLe).take limit := by
      rw [aggregateLatencyMetrics, if_neg (by simpa using hev)]
    obtain ⟨hent, hnd, hcover⟩ := groupEventsByTenant_char events
    have hsorted := List.sorted_mergeSort latLe_trans latLe_total
      ((groupEventsByTenant events).filterMap
        (fun p => latencyMetricForTenant p.1 p.2))
    refine ⟨?_, ?_, ?_⟩
    · rw [hres, List.length_take]
      exact min_le_left _ _
    · rw [hres]
      exact ((List.Pairwise.sublist (List.take_sublist _ _) hsorted).imp
        (fun h => (latLe_iff _ _).mp h))
    · intro m hm
      rw [hres] at hm
      have hm₁ := (List.mergeSort_perm _ latLe).mem_iff.mp
        (List.take_subset _ _ hm)
      obtain ⟨p, hpG, hsome⟩ := List.mem_filterMap.mp hm₁
      obtain ⟨hk, hfil, hne⟩ := hent p hpG
      by_cases hlat : (validLatencies (p.2.map (fun e => e.latency_ms))).isEmpty
      · rw [latencyMetricForTenant] at hsome
        rw [if_pos hlat] at hsome
        exact absurd hsome (by simp)
      · rw [latencyMetricForTenant] at hsome
        rw [if_neg hlat] at hsome
        obtain rfl := Option.some_injective _ hsome
        have hlats_ne : validLatencies (p.2.map (fun e => e.latency_ms)) ≠ [] := by
          simpa using hlat
        refine ⟨hk, ?_, ?_, ?_⟩
        · show p.2.length
              = (events.filter (fun e => decide (e.tenant_id = p.1))).length
          rw [hfil]
        · show validLatencies ((events.filter
              (fun e => decide (e.tenant_id = p.1))).map
              (fun e => e.latency_ms)) ≠ []
          rw [← hfil]
          exact hlats_ne
        · intro l hperm hsortedl
          have hperm₂ : l.Perm (validLatencies (p.2.map (fun e => e.latency_ms))) := by
            refine hperm.trans ?_
            rw [hfil]
          have heq : l = (validLatencies (p.2.map
              (fun e => e.latency_ms))).mergeSort (fun a b => decide (a ≤ b)) := by
            refine List.eq_of_perm_of_sorted ?_ hsortedl (ratSort_sorted _)
            exact hperm₂.trans (List.mergeSort_perm _ _).symm
          subst heq
          have hslen_ne : ((validLatencies (p.2.map
              (fun e => e.latency_ms))).mergeSort
              (fun a b => decide (a ≤ b))).length ≠ 0 := by
            rw [(List.mergeSort_perm _ _).length_eq]
            simpa [List.length_eq_zero] using hlats_ne
          have hs_ne : ((validLatencies (p.2.map
              (fun e => e.latency_ms))).mergeSort
              (fun a b => decide (a ≤ b))) ≠ [] := by
            intro h0
            rw [h0] at hslen_ne
            exact hslen_ne rfl
          constructor
          · show jsRound (calculateMean _) = _
            rw [calculateMean, if_neg (by simpa [List.isEmpty_iff] using hs_ne)]
          · show jsRound (calculateP95 _) = _
            rw [calculateP95, if_neg hslen_ne]

/-- A single event with a valid latency used to instantiate the C4
theorem. -/
def c4e : StoredEvent :=
  ⟨1000, "tenant-a", "/api", "GET", 200, .num 100, "svc"⟩

/-- C4 witness: the theorem applied to one stored event of latency 100,
whose aggregation entry has mean computed by the stated formula over the
ascending-sorted valid latencies. -/
theorem aggregateLatencyMetrics_spec_witness :
    (aggregateLatencyMetrics [c4e] 10).length ≤ 10
    ∧ (⟨"tenant-a", 1, 100, 100⟩ : TenantLatencyMetrics)
        ∈ aggregateLatencyMetrics [c4e] 10
    ∧ (⟨"tenant-a", 1, 100, 100⟩ : TenantLatencyMetrics).mean_latency
        = jsRound (([(100 : ℚ)]).sum / (([(100 : ℚ)]).length : ℚ)) := by
  have h := aggregateLatencyMetrics_spec [c4e] 10
  have hval : validLatencies ([c4e].map (fun e => e.latency_ms)) = [(100 : ℚ)] := by
    norm_num [validLatencies, c4e, List.filterMap_cons, List.filterMap_nil]
  have hgroups : groupEventsByTenant [c4e] = [("tenant-a", [c4e])] := by
    simp [groupEventsByTenant, groupStep, pushGroup, c4e]
  have hlm : latencyMetricForTenant "tenant-a" [c4e]
      = some ⟨"tenant-a", 1, 100, 100⟩ := by
    norm_num [latencyMetricForTenant, validLatencies, calculateMean, calculateP95,
      jsRound, List.mergeSort, List.filterMap_cons, List.filterMap_nil, c4e]
  have hres_eval : aggregateLatencyMetrics [c4e] 10
      = [⟨"tenant-a", 1, 100, 100⟩] := by
    rw [aggregateLatencyMetrics, if_neg (by simp)]
    rw [hgroups]
    rw [show (([("tenant-a", [c4e])] : Groups).filterMap
        (fun p => latencyMetricForTenant p.1 p.2))
        = [(⟨"tenant-a", 1, 100, 100⟩ : TenantLatencyMetrics)] from by
      simp [hlm]]
    simp [List.mergeSort]
  have hm : (⟨"tenant-a", 1, 100, 100⟩ : TenantLatencyMetrics)
      ∈ aggregateLatencyMetrics [c4e] 10 := by
    rw [hres_eval]
    exact List.mem_singleton.mpr rfl
  refine ⟨h.1, hm, ?_⟩
  have hfacts := h.2.2 _ hm
  refine (hfacts.2.2.2 [(100 : ℚ)] ?_ ?_).1
  · rw [show ([c4e].filter (fun e => decide (e.tenant_id
        = (⟨"tenant-a", 1, 100, 100⟩ : TenantLatencyMetrics).tenant_id)))
        = [c4e] from by simp [c4e]]
    rw [hval]
  · simp

end Sentinel
